import Mathlib

/-!
Shallow embedding of the narrow-polymorphic-handle code generated by the
`narrowable` and `narrowable_rboehm` attributes in `src/lib.rs`.

The generated code manipulates raw memory: a one-word handle points at an
object whose interface descriptor (vtable pointer) is stored exactly one
word below the object.  We model:

* `Layout` / `Layout.extend` — Rust's `std::alloc::Layout` as used by the
  code: `Layout::new::<usize>().extend(Layout::new::<U>())`.
* `Mem` — byte-addressed memory, `Nat → Nat`.  A word value written at
  address `a` is recorded in cell `a`; the generated code keeps the word
  region `[a, a + 8)` disjoint from every object byte it reads or writes,
  so this abstraction is faithful for all the accesses modelled here.
* `Ty` — what rustc knows statically about a concrete type `U`
  implementing the interface: its size, alignment, vtable address for the
  interface, and method implementations.
* `VtEnv` — how a descriptor word is interpreted at dispatch time (the
  vtable the word points at); `coheres` says `U.vt` really points at `U`'s
  vtable, which is how Rust vtables work.
-/

namespace Natrob

/-- Bytes per machine word on the 64-bit platform the source comments
assume (`size_of::<usize>() = align_of::<usize>() = 8`). -/
def wordSize : Nat := 8

/-- `std::alloc::Layout`: a size in bytes and an alignment.  Rust
guarantees the alignment of any `Layout` it constructs is a power of
two. -/
structure Layout where
  size : Nat
  align : Nat
deriving Repr, DecidableEq

/-- `Layout::new::<usize>()` on a 64-bit platform. -/
def usizeLayout : Layout := ⟨wordSize, wordSize⟩

/-- Round `n` up to the next multiple of `a`.  `Layout::padding_needed_for`
computes the bit-masked form `(n + a - 1) & !(a - 1)`, which equals this
for the power-of-two alignments `Layout` guarantees. -/
def roundUp (n a : Nat) : Nat := (n + a - 1) / a * a

/-- `Layout::extend(self, next)`: place `next` after `self`, returning the
combined layout and the byte offset of `next` inside it.  (`unwrap`
always succeeds in the model: `Nat` has no overflow.) -/
def Layout.extend (l next : Layout) : Layout × Nat :=
  let pad := roundUp l.size next.align - l.size
  let offset := l.size + pad
  (⟨offset + next.size, max l.align next.align⟩, offset)

/-- The combined layout and object offset computed by every constructor
in the source: `Layout::new::<usize>().extend(Layout::new::<U>()).unwrap()`. -/
def combined (u : Layout) : Layout × Nat := usizeLayout.extend u

/-- Byte-addressed memory. -/
def Mem := Nat → Nat

/-- `ptr::write(a as *mut usize, v)`: record the word value in cell `a`. -/
def writeWord (m : Mem) (a v : Nat) : Mem := fun x => if x = a then v else m x

/-- `ptr::read(a as *mut usize)`. -/
def readWord (m : Mem) (a : Nat) : Nat := m a

/-- `copy_from_nonoverlapping`: store `bs` at addresses `a, a+1, …`. -/
def writeBytes (m : Mem) (a : Nat) (bs : List Nat) : Mem :=
  fun x => if a ≤ x ∧ x < a + bs.length then bs.getD (x - a) 0 else m x

/-- Read `n` bytes starting at `a`. -/
def readBytes (m : Mem) (a n : Nat) : List Nat :=
  (List.range n).map fun i => m (a + i)

/-- The vtable a descriptor word points at: the concrete type's size and
alignment (read back by `size_of_val` / `align_of_val`), plus its
implementations of the interface methods; a method takes the object's
bytes to a result. -/
structure VtInfo where
  size : Nat
  align : Nat
  method : Nat → List Nat → Nat

/-- Interpretation of descriptor words at dispatch time. -/
def VtEnv := Nat → VtInfo

/-- What rustc knows statically about a concrete type `U` implementing
the interface: its layout, the address of its vtable for the interface,
and its trait-method implementations. -/
structure Ty where
  size : Nat
  align : Nat
  vt : Nat
  method : Nat → List Nat → Nat

/-- The descriptor word `U.vt` really points at `U`'s vtable. -/
def coheres (env : VtEnv) (U : Ty) : Prop :=
  env U.vt = ⟨U.size, U.align, U.method⟩

/-- The manual narrow handle: `struct #struct_id { objptr: *mut u8 }`. -/
structure NarrowHandle where
  objptr : Nat
deriving Repr, DecidableEq

/-- `#struct_id::new::<U>` (manual variant), given the address the
allocator returned for the combined layout: `objptr = base + uoff`,
write the vtable word at `objptr - size_of::<usize>()`, copy the value's
bytes to `objptr` when `size_of::<U>() != 0`, return a handle holding
`objptr`.  The source calls `::std::mem::forget(v)` so the original is
not separately dropped; ownership of the bytes moves into the block. -/
def newManual (U : Ty) (bytes : List Nat) (m : Mem) (base : Nat) :
    NarrowHandle × Mem :=
  let uoff := (combined ⟨U.size, U.align⟩).2
  let objptr := base + uoff
  let vtableptr := objptr - wordSize
  let m1 := writeWord m vtableptr U.vt
  let m2 := if U.size ≠ 0 then writeBytes m1 objptr bytes else m1
  (⟨objptr⟩, m2)

/-- The descriptor a concrete type `V` would give: the source transmutes
`::std::ptr::null() as *const V` to a fat pointer and keeps the vtable
word, so descriptor identity is independent of the address — it is
`V.vt`. -/
def expectedVt (V : Ty) : Nat := V.vt

/-- `#struct_id::downcast::<V>` (manual variant): compare `V`'s expected
descriptor against the word one word below the handle; on a match return
the typed reference's address `objptr`, otherwise `None`. -/
def downcast (m : Mem) (h : NarrowHandle) (V : Ty) : Option Nat :=
  let t_vtable := expectedVt V
  let vtable := readWord m (h.objptr - wordSize)
  if t_vtable = vtable then some h.objptr else none

/-- `Deref::deref` (manual variant): load the descriptor one word below
`objptr` and pair it with `objptr`, reconstructing a dispatchable fat
reference `(address, vtable)`. -/
def deref (m : Mem) (h : NarrowHandle) : Nat × Nat :=
  (h.objptr, readWord m (h.objptr - wordSize))

/-- Invoke interface method `k` through a fat reference: the machine
follows the descriptor word to its vtable and runs that entry on the
referent's bytes. -/
def invokeFat (env : VtEnv) (m : Mem) (r : Nat × Nat) (k : Nat) : Nat :=
  (env r.2).method k (readBytes m r.1 (env r.2).size)

/-- Invoke method `k` directly on a value of `U` before construction. -/
def invokeDirect (U : Ty) (bytes : List Nat) (k : Nat) : Nat :=
  U.method k bytes

/-- The observable effect of a destructor run: which descriptor the
object's drop glue was dispatched through, and the `(address, layout)`
blocks released to the allocator. -/
structure DropEffect where
  dropVt : Nat
  deallocs : List (Nat × Layout)
deriving Repr, DecidableEq

/-- `Drop::drop` (manual variant): read the descriptor one word below
`objptr`; run the object's drop glue through it; read the dynamic size
and alignment out of the vtable (`size_of_val` / `align_of_val`);
recompute the combined layout from them; release
`objptr - uoff` with that layout. -/
def dropManual (env : VtEnv) (m : Mem) (h : NarrowHandle) : DropEffect :=
  let vtable := readWord m (h.objptr - wordSize)
  let size := (env vtable).size
  let align := (env vtable).align
  let lo := usizeLayout.extend ⟨size, align⟩
  let baseptr := h.objptr - lo.2
  ⟨vtable, [(baseptr, lo.1)]⟩

/-- `std::alloc::alloc`: some address for the requested layout, or none
(a null return) on exhaustion. -/
def Allocator := Layout → Option Nat

/-- `#struct_id::new::<U>` with the allocation outcome made explicit.
The source does not test the returned pointer: on a null base the very
next step writes the vtable word through the dead pointer, which kills
the process before any handle value exists, so no handle is produced. -/
def newChecked (A : Allocator) (U : Ty) (bytes : List Nat) (m : Mem) :
    Option (NarrowHandle × Mem) :=
  match A (combined ⟨U.size, U.align⟩).1 with
  | none => none
  | some base => some (newManual U bytes m base)

/-- The GC narrow handle (`narrowable_rboehm`): the `Gc<#struct_id>`
points at the block itself — the vtable word sits at `addr` and the
object at `addr + size_of::<usize>()`. -/
structure GcHandle where
  addr : Nat
deriving Repr, DecidableEq

/-- `#struct_id::new::<U>` (GC variant), given the address the collector
returned for the combined layout: `objptr = base + uoff` (the
`debug_assert` checks `uoff = size_of::<usize>()`), write the vtable word
at `base`, copy the value's bytes to `objptr` when `size_of::<U>() != 0`,
and return the collector-managed handle at `base`. -/
def newGc (U : Ty) (bytes : List Nat) (m : Mem) (base : Nat) :
    GcHandle × Mem :=
  let uoff := (combined ⟨U.size, U.align⟩).2
  let objptr := base + uoff
  let m1 := writeWord m base U.vt
  let m2 := if U.size ≠ 0 then writeBytes m1 objptr bytes else m1
  (⟨base⟩, m2)

/-- `#struct_id::downcast::<V>` (GC variant): compare `V`'s expected
descriptor against the word stored at the handle itself; on a match
return `Gc::from_raw` of the address one word above, otherwise `None`. -/
def downcastGc (m : Mem) (h : GcHandle) (V : Ty) : Option Nat :=
  let t_vtable := expectedVt V
  let vtable := readWord m h.addr
  if t_vtable = vtable then some (h.addr + wordSize) else none

/-- `#struct_id::recover_gc`: rebuild the generic handle from a typed
reference by subtracting one word from its address
(`(objptr as *const usize).sub(1)`). -/
def recoverGc (objptr : Nat) : Nat := objptr - wordSize

/-- `Deref::deref` (GC variant): the descriptor word lives at the handle's
own address and the object one word above. -/
def derefGc (m : Mem) (h : GcHandle) : Nat × Nat :=
  (h.addr + wordSize, readWord m h.addr)

/-- `Drop::drop` (GC variant): run the object's drop glue through the
descriptor word read from the block; the body contains no deallocation —
reclaiming the block is the collector's job. -/
def dropGc (m : Mem) (h : GcHandle) : DropEffect :=
  let vtable := readWord m h.addr
  ⟨vtable, []⟩

/-! ### Concrete instances used to exercise the definitions -/

/-- A concrete type: two bytes, byte alignment, descriptor word `100`,
methods summing the bytes. -/
def tyA : Ty := ⟨2, 1, 100, fun k bs => k + bs.sum⟩

/-- A different concrete type: four bytes, word-of-four alignment,
descriptor word `200`. -/
def tyB : Ty := ⟨4, 4, 200, fun k bs => k * bs.sum⟩

/-- All-zero memory. -/
def memZero : Mem := fun _ => 0

/-- A vtable environment interpreting `100` as `tyA`'s vtable and `200`
as `tyB`'s. -/
def envAB : VtEnv := fun v =>
  if v = 100 then ⟨2, 1, fun k bs => k + bs.sum⟩
  else if v = 200 then ⟨4, 4, fun k bs => k * bs.sum⟩
  else ⟨0, 1, fun k _ => k⟩

/-- An allocator that is out of memory. -/
def allocNone : Allocator := fun _ => none

/-! ### Helper lemmas about the memory model and the layout combiner -/

theorem writeBytes_of_lt (m : Mem) (a : Nat) (bs : List Nat) (x : Nat)
    (hx : x < a) : writeBytes m a bs x = m x := by
  unfold writeBytes
  rw [if_neg]
  rintro ⟨h1, -⟩
  exact absurd hx (not_lt.mpr h1)

theorem readWord_writeWord (m : Mem) (a v : Nat) :
    readWord (writeWord m a v) a = v := by
  simp [readWord, writeWord]

theorem readBytes_writeBytes (m : Mem) (a : Nat) (bs : List Nat) :
    readBytes (writeBytes m a bs) a bs.length = bs := by
  apply List.ext_get
  · simp [readBytes]
  intro i h1 h2
  simp only [readBytes, writeBytes, List.get_eq_getElem, List.getElem_map,
    List.getElem_range]
  have hi : i < bs.length := by simpa [readBytes] using h2
  rw [if_pos ⟨Nat.le_add_right a i, by omega⟩]
  simp [List.getD_eq_getElem?_getD, List.getElem?_eq_getElem hi, hi]

theorem readBytes_zero (m : Mem) (a : Nat) : readBytes m a 0 = [] := by
  simp [readBytes]

/-- The object offset is at least one word: `uoff = wordSize + padding`. -/
theorem wordSize_le_uoff (u : Layout) : wordSize ≤ (combined u).2 :=
  Nat.le_add_right _ _

/-- After `newManual`, the word one word below `objptr` holds `U.vt`. -/
theorem newManual_vtable (U : Ty) (bytes : List Nat) (m : Mem) (base : Nat) :
    readWord (newManual U bytes m base).2
      ((newManual U bytes m base).1.objptr - wordSize) = U.vt := by
  unfold newManual
  simp only
  set uoff := (combined ⟨U.size, U.align⟩).2 with huoff
  have h8 : wordSize ≤ uoff := wordSize_le_uoff _
  have hlt : base + uoff - wordSize < base + uoff := by
    have : 0 < wordSize := by decide
    omega
  by_cases hz : U.size ≠ 0
  · rw [if_pos hz]
    unfold readWord
    rw [writeBytes_of_lt _ _ _ _ hlt]
    exact readWord_writeWord m _ _
  · rw [if_neg hz]
    exact readWord_writeWord m _ _

/-- After `newManual`, the object's bytes read back unchanged. -/
theorem newManual_bytes (U : Ty) (bytes : List Nat) (m : Mem) (base : Nat)
    (hlen : bytes.length = U.size) :
    readBytes (newManual U bytes m base).2
      (newManual U bytes m base).1.objptr U.size = bytes := by
  unfold newManual
  simp only
  by_cases hz : U.size ≠ 0
  · rw [if_pos hz, ← hlen]
    exact readBytes_writeBytes _ _ _
  · rw [if_neg hz]
    push_neg at hz
    rw [hz, readBytes_zero]
    rw [hz] at hlen
    exact (List.length_eq_zero.mp hlen).symm

/-- After `newGc`, the word at the handle's address holds `U.vt`. -/
theorem newGc_vtable (U : Ty) (bytes : List Nat) (m : Mem) (base : Nat) :
    readWord (newGc U bytes m base).2 (newGc U bytes m base).1.addr = U.vt := by
  unfold newGc
  simp only
  set uoff := (combined ⟨U.size, U.align⟩).2 with huoff
  have h8 : wordSize ≤ uoff := wordSize_le_uoff _
  have hlt : base < base + uoff := by
    have : 0 < wordSize := by decide
    omega
  by_cases hz : U.size ≠ 0
  · rw [if_pos hz]
    unfold readWord
    rw [writeBytes_of_lt _ _ _ _ hlt]
    exact readWord_writeWord m _ _
  · rw [if_neg hz]
    exact readWord_writeWord m _ _

theorem roundUp_eq_of_dvd (n a : Nat) (ha : 0 < a) (h : a ∣ n) :
    roundUp n a = n := by
  obtain ⟨c, rfl⟩ := h
  unfold roundUp
  rcases Nat.eq_zero_or_pos c with hc | hc
  · subst hc
    rw [Nat.mul_zero, Nat.zero_add, Nat.div_eq_of_lt (by omega : a - 1 < a),
      Nat.zero_mul]
  · have h1 : a * c + a - 1 = (a - 1) + a * c := by omega
    rw [h1, Nat.add_mul_div_left _ _ ha, Nat.div_eq_of_lt (by omega : a - 1 < a),
      Nat.zero_add, Nat.mul_comm]

theorem roundUp_eq_of_le (n a : Nat) (hn : 0 < n) (h : n ≤ a) :
    roundUp n a = a := by
  unfold roundUp
  have ha : 0 < a := lt_of_lt_of_le hn h
  have h1 : n + a - 1 = (n - 1) + a := by omega
  rw [h1, Nat.add_div_right _ ha, Nat.div_eq_of_lt (by omega : n - 1 < a),
    Nat.zero_add, Nat.one_mul]

/-- The object offset computed by the combiner, for a power-of-two object
alignment: the word size itself when the alignment is at most a word,
and the alignment otherwise. -/
theorem uoff_eq (s k : Nat) :
    (combined ⟨s, 2 ^ k⟩).2 =
      if 2 ^ k ≤ wordSize then wordSize else 2 ^ k := by
  unfold combined Layout.extend usizeLayout
  simp only
  by_cases h : 2 ^ k ≤ wordSize
  · rw [if_pos h]
    have hk : k ≤ 3 := by
      by_contra hk
      have : 2 ^ 4 ≤ 2 ^ k := Nat.pow_le_pow_right (by decide) (by omega)
      have : (16 : Nat) ≤ 2 ^ k := by norm_num at this ⊢; exact this
      simp [wordSize] at h
      omega
    have hdvd : 2 ^ k ∣ wordSize := by
      have : (wordSize : Nat) = 2 ^ 3 := by decide
      rw [this]
      exact Nat.pow_dvd_pow 2 hk
    rw [roundUp_eq_of_dvd _ _ (Nat.pos_pow_of_pos k (by decide)) hdvd]
    simp
  · rw [if_neg h]
    push_neg at h
    rw [roundUp_eq_of_le _ _ (by decide) (le_of_lt h)]
    have : 2 ^ k - wordSize + wordSize = 2 ^ k := by omega
    omega

/-! ### Claim theorems -/

/-- C1: Round-trip identity — for every concrete type `U` and every value
(byte string of `U`'s size, including the zero-sized case), `downcast` to
`U` on the handle built by `new` returns `Some` of the typed reference,
and the observable state read through it equals the original value's. -/
theorem C1_roundtrip_identity (U : Ty) (bytes : List Nat) (m : Mem)
    (base : Nat) (hlen : bytes.length = U.size) :
    downcast (newManual U bytes m base).2 (newManual U bytes m base).1 U
      = some (newManual U bytes m base).1.objptr
    ∧ readBytes (newManual U bytes m base).2
        (newManual U bytes m base).1.objptr U.size = bytes := by
  refine ⟨?_, newManual_bytes U bytes m base hlen⟩
  unfold downcast
  simp only [expectedVt]
  rw [newManual_vtable, if_pos rfl]

theorem C1_roundtrip_identity_witness :
    downcast (newManual tyA [3, 4] memZero 0).2 (newManual tyA [3, 4] memZero 0).1 tyA
      = some (newManual tyA [3, 4] memZero 0).1.objptr
    ∧ readBytes (newManual tyA [3, 4] memZero 0).2
        (newManual tyA [3, 4] memZero 0).1.objptr tyA.size = [3, 4] :=
  C1_roundtrip_identity tyA [3, 4] memZero 0 (by decide)

/-- C2: Negative downcast — on a handle built from a value of `U`,
`downcast` to a type with a different descriptor returns `None` (the
function is total, so the mismatch is never a fault), and `downcast`
succeeds exactly when the target's descriptor equals the stored one,
i.e. exactly when the two descriptors denote the same concrete type. -/
theorem C2_negative_downcast (U V : Ty) (bytes : List Nat) (m : Mem)
    (base : Nat) (hne : U.vt ≠ V.vt) :
    downcast (newManual U bytes m base).2 (newManual U bytes m base).1 V = none
    ∧ ∀ T : Ty,
        (downcast (newManual U bytes m base).2
          (newManual U bytes m base).1 T).isSome = true ↔ T.vt = U.vt := by
  have key : ∀ T : Ty,
      downcast (newManual U bytes m base).2 (newManual U bytes m base).1 T
        = if T.vt = U.vt then some (newManual U bytes m base).1.objptr
          else none := by
    intro T
    unfold downcast
    simp only [expectedVt]
    rw [newManual_vtable]
  constructor
  · rw [key V, if_neg (fun hvu => hne hvu.symm)]
  · intro T
    rw [key T]
    by_cases hT : T.vt = U.vt
    · simp [hT]
    · simp [hT]

theorem C2_negative_downcast_witness :
    (downcast (newManual tyA [3, 4] memZero 0).2
        (newManual tyA [3, 4] memZero 0).1 tyB = none)
    ∧ ∀ T : Ty,
        (downcast (newManual tyA [3, 4] memZero 0).2
          (newManual tyA [3, 4] memZero 0).1 T).isSome = true ↔ T.vt = tyA.vt :=
  C2_negative_downcast tyA tyB [3, 4] memZero 0 (by decide)

/-- C3: Dispatch correctness — invoking any interface method through the
fat reference `Deref::deref` reconstructs (object address paired with the
descriptor loaded one word below it) gives the same result as invoking
the method directly on the original value before construction. -/
theorem C3_dispatch_correctness (env : VtEnv) (U : Ty) (bytes : List Nat)
    (m : Mem) (base k : Nat) (hco : coheres env U)
    (hlen : bytes.length = U.size) :
    invokeFat env (newManual U bytes m base).2
        (deref (newManual U bytes m base).2 (newManual U bytes m base).1) k
      = invokeDirect U bytes k := by
  have hco' : env U.vt = ⟨U.size, U.align, U.method⟩ := hco
  unfold invokeFat deref invokeDirect
  simp only
  rw [newManual_vtable, hco']
  simp only
  rw [newManual_bytes U bytes m base hlen]

theorem C3_dispatch_correctness_witness :
    invokeFat envAB (newManual tyA [3, 4] memZero 0).2
        (deref (newManual tyA [3, 4] memZero 0).2
          (newManual tyA [3, 4] memZero 0).1) 7
      = invokeDirect tyA [3, 4] 7 :=
  C3_dispatch_correctness envAB tyA [3, 4] memZero 0 7 rfl (by decide)

/-- C4: Layout-combiner invariant — for every object size and every
power-of-two alignment, the offset `uoff` returned by extending the
word-sized, word-aligned layout with the object's layout is a multiple of
the word size (so `uoff - wordSize` is a validly aligned word position
and the `debug_assert_eq!(uoff % align_of::<usize>(), 0)` never fires);
when the alignment is at most a word the offset is exactly one word (no
padding), and otherwise the inserted padding `uoff - wordSize` is an
exact multiple of the word size. -/
theorem C4_layout_combiner_invariant (s k : Nat) :
    (combined ⟨s, 2 ^ k⟩).2 % wordSize = 0
    ∧ wordSize ≤ (combined ⟨s, 2 ^ k⟩).2
    ∧ (2 ^ k ≤ wordSize → (combined ⟨s, 2 ^ k⟩).2 = wordSize)
    ∧ (wordSize < 2 ^ k →
        wordSize ∣ ((combined ⟨s, 2 ^ k⟩).2 - wordSize)) := by
  have hle : wordSize ≤ (combined ⟨s, 2 ^ k⟩).2 := wordSize_le_uoff _
  rw [uoff_eq]
  by_cases h : 2 ^ k ≤ wordSize
  · rw [if_pos h]
    refine ⟨by decide, le_refl _, fun _ => rfl, fun hgt => absurd h (not_le.mpr hgt)⟩
  · rw [if_neg h]
    push_neg at h
    have hk : 4 ≤ k := by
      by_contra hk
      push_neg at hk
      have : 2 ^ k ≤ 2 ^ 3 := Nat.pow_le_pow_right (by decide) (by omega)
      have h8 : (2 : Nat) ^ 3 = wordSize := by decide
      omega
    have hdvd : wordSize ∣ 2 ^ k := by
      have h8 : (wordSize : Nat) = 2 ^ 3 := by decide
      rw [h8]
      exact Nat.pow_dvd_pow 2 (by omega)
    obtain ⟨c, hc⟩ := hdvd
    refine ⟨by rw [hc]; exact Nat.mul_mod_right _ _, le_of_lt h, ?_, ?_⟩
    · intro hle2
      exact absurd hle2 (not_le.mpr h)
    · intro _
      exact Nat.dvd_sub' ⟨c, hc⟩ ⟨1, (Nat.mul_one _).symm⟩

theorem C4_layout_combiner_invariant_witness :
    (combined ⟨4, 2 ^ 5⟩).2 % wordSize = 0
    ∧ wordSize ≤ (combined ⟨4, 2 ^ 5⟩).2
    ∧ (2 ^ 5 ≤ wordSize → (combined ⟨4, 2 ^ 5⟩).2 = wordSize)
    ∧ (wordSize < 2 ^ 5 →
        wordSize ∣ ((combined ⟨4, 2 ^ 5⟩).2 - wordSize)) :=
  C4_layout_combiner_invariant 4 5

/-- C5: Destruction layout recomputation — on a handle built by `new` for
`U`, when the descriptor word is interpreted coherently (`size_of_val` /
`align_of_val` read `U`'s size and alignment out of the vtable),
`Drop::drop` dispatches the destructor through `U`'s descriptor and
releases exactly the address the allocator returned, with exactly the
combined layout computed at construction time. -/
theorem C5_drop_layout_recomputation (env : VtEnv) (U : Ty)
    (bytes : List Nat) (m : Mem) (base : Nat) (hco : coheres env U) :
    dropManual env (newManual U bytes m base).2 (newManual U bytes m base).1
      = ⟨U.vt, [(base, (combined ⟨U.size, U.align⟩).1)]⟩ := by
  have hco' : env U.vt = ⟨U.size, U.align, U.method⟩ := hco
  unfold dropManual
  simp only
  rw [newManual_vtable, hco']
  simp only
  have hobj : (newManual U bytes m base).1.objptr
      = base + (combined ⟨U.size, U.align⟩).2 := rfl
  rw [hobj]
  have hsub : base + (combined ⟨U.size, U.align⟩).2
      - (usizeLayout.extend ⟨U.size, U.align⟩).2 = base := by
    have : (combined ⟨U.size, U.align⟩).2
        = (usizeLayout.extend ⟨U.size, U.align⟩).2 := rfl
    omega
  rw [hsub]
  rfl

theorem C5_drop_layout_recomputation_witness :
    dropManual envAB (newManual tyB [1, 2, 3, 4] memZero 16).2
        (newManual tyB [1, 2, 3, 4] memZero 16).1
      = ⟨tyB.vt, [(16, (combined ⟨tyB.size, tyB.align⟩).1)]⟩ :=
  C5_drop_layout_recomputation envAB tyB [1, 2, 3, 4] memZero 16 rfl

/-- C6: Allocation failure is fatal — when the allocator returns no block
for the combined layout, construction produces no handle at all: the
source never tests the pointer, so the very next write faults and no
partially constructed handle is observable. -/
theorem C6_alloc_failure_fatal (A : Allocator) (U : Ty) (bytes : List Nat)
    (m : Mem) (hfail : A (combined ⟨U.size, U.align⟩).1 = none) :
    newChecked A U bytes m = none := by
  unfold newChecked
  rw [hfail]

theorem C6_alloc_failure_fatal_witness :
    newChecked allocNone tyA [3, 4] memZero = none :=
  C6_alloc_failure_fatal allocNone tyA [3, 4] memZero rfl

/-- C7: GC-variant fixed offset — for any layout whose alignment is a
power of two not exceeding the word size (the `debug_assert` restriction
of both GC constructors, `new` with `Layout::new::<U>()` and
`new_from_layout` with the caller's layout), the offset returned by
`Layout::new::<usize>().extend(...)` equals exactly one word. -/
theorem C7_gc_fixed_offset (L : Layout) (k : Nat) (hal : L.align = 2 ^ k)
    (hle : L.align ≤ wordSize) :
    (usizeLayout.extend L).2 = wordSize := by
  obtain ⟨s, a⟩ := L
  simp only at hal hle
  subst hal
  have h := uoff_eq s k
  rw [if_pos hle] at h
  exact h

theorem C7_gc_fixed_offset_witness :
    (usizeLayout.extend ⟨12, 4⟩).2 = wordSize :=
  C7_gc_fixed_offset ⟨12, 4⟩ 2 (by decide) (by decide)

/-- C8: GC recovery round-trip — on a GC handle storing a value of `U`,
`downcast::<U>` returns `Some` typed reference one word above the handle,
and `recover_gc`'s subtract-one-word takes that reference's address back
to exactly the handle's address. -/
theorem C8_gc_recover_roundtrip (U : Ty) (bytes : List Nat) (m : Mem)
    (base : Nat) :
    ∃ p, downcastGc (newGc U bytes m base).2 (newGc U bytes m base).1 U = some p
      ∧ recoverGc p = (newGc U bytes m base).1.addr := by
  have haddr : (newGc U bytes m base).1.addr = base := rfl
  refine ⟨base + wordSize, ?_, ?_⟩
  · unfold downcastGc
    simp only [expectedVt]
    rw [newGc_vtable, if_pos rfl, haddr]
  · rw [haddr]
    unfold recoverGc
    omega

/-- C9: GC-variant finalization frame — `Drop::drop` of a GC handle built
for `U` dispatches the object's drop glue through the descriptor stored
in the block (so `U`'s destructor runs) and releases no memory at all:
its deallocation list is empty. -/
theorem C9_gc_drop_no_dealloc (U : Ty) (bytes : List Nat) (m : Mem)
    (base : Nat) :
    dropGc (newGc U bytes m base).2 (newGc U bytes m base).1
      = ⟨U.vt, []⟩ := by
  unfold dropGc
  rw [newGc_vtable]

/-- C10: Downcast is read-only — both `downcast`s are pure functions of
the memory (the source takes `&self` and only reads), and their result
depends only on the stored descriptor word: two memories agreeing on that
word give identical results, for every target type, so repeated calls on
an unchanged handle agree. -/
theorem C10_downcast_readonly (m m2 : Mem) (h : NarrowHandle) (g : GcHandle)
    (V : Ty) (h1 : m (h.objptr - wordSize) = m2 (h.objptr - wordSize))
    (h2 : m g.addr = m2 g.addr) :
    downcast m h V = downcast m2 h V
    ∧ downcastGc m g V = downcastGc m2 g V := by
  constructor
  · unfold downcast readWord
    rw [h1]
  · unfold downcastGc readWord
    rw [h2]

theorem C10_downcast_readonly_witness :
    downcast memZero ⟨16⟩ tyA = downcast (writeWord memZero 999 5) ⟨16⟩ tyA
    ∧ downcastGc memZero ⟨32⟩ tyA
      = downcastGc (writeWord memZero 999 5) ⟨32⟩ tyA :=
  C10_downcast_readonly memZero (writeWord memZero 999 5) ⟨16⟩ ⟨32⟩ tyA
    (by decide) (by decide)

end Natrob
